import Mathlib

/-!
Verification development for the gaze-driven video controller.

The source consists of three Python modules:
  - eye_detector.py: eye-aspect-ratio (EAR) eye state machine and gaze
    stability state machine (class MediaPipeEyeDetector);
  - video_capture.py: capture loop combining face presence, eye state and
    gaze state into de-duplicated play/pause commands (VideoCaptureThread.run);
  - video_player.py: wall-clock playback clock with play/pause/stop/seek
    (class VideoPlayerThread).

Wall-clock times, EAR values, variances and durations are embedded as
rationals; Python ints as Int/Nat.  Each definition mirrors the branch
structure of the corresponding Python function.
-/

namespace EyeRemote

/-! ## Eye state machine (eye_detector.py, MediaPipeEyeDetector.update_eye_state) -/

/-- The four internal eye states of `MediaPipeEyeDetector.eye_state`
(`"open"`, `"closing"`, `"closed"`, `"opening"`). -/
inductive EyeState where
  | open_
  | closing
  | closed
  | opening
deriving DecidableEq, Repr

/-- `EAR_BLINK_THRESHOLD = 0.18` (written as the normalized rational 18/100). -/
abbrev EAR_BLINK_THRESHOLD : ℚ := mkRat 18 100

/-- `EAR_OPEN_THRESHOLD = 0.25` (written as the normalized rational 25/100). -/
abbrev EAR_OPEN_THRESHOLD : ℚ := mkRat 25 100

/-- `BLINK_FRAME_THRESHOLD = 4`. -/
abbrev BLINK_FRAME_THRESHOLD : ℤ := 4

/-- The mutable eye-tracking fields of `MediaPipeEyeDetector`:
`eye_state`, `blink_counter`, `closed_counter`, `in_blink_phase`.
`blink_counter` is an integer because the `opening` branch decrements it
below zero before the `<= 0` test. -/
structure EyeSt where
  eye_state : EyeState
  blink_counter : ℤ
  closed_counter : ℤ
  in_blink_phase : Bool
deriving DecidableEq, Repr

/-- The reset values assigned in `__init__` and on face loss. -/
def eyeReset : EyeSt := ⟨.open_, 0, 0, false⟩

/-- `MediaPipeEyeDetector.update_eye_state(avg_ear)` (eye_detector.py lines
101-140), as a function of the four mutable fields. -/
def update_eye_state (s : EyeSt) (avg_ear : ℚ) : EyeSt :=
  match s.eye_state with
  | .open_ =>
      if avg_ear < EAR_BLINK_THRESHOLD then
        ⟨.closing, 1, 0, true⟩
      else s
  | .closing =>
      if avg_ear < EAR_BLINK_THRESHOLD then
        let b := s.blink_counter + 1
        if b > BLINK_FRAME_THRESHOLD then
          ⟨.closed, b, b, s.in_blink_phase⟩
        else
          ⟨.closing, b, s.closed_counter, s.in_blink_phase⟩
      else
        ⟨.open_, 0, s.closed_counter, false⟩
  | .closed =>
      if avg_ear > EAR_OPEN_THRESHOLD then
        ⟨.opening, 0, s.closed_counter, s.in_blink_phase⟩
      else
        ⟨.closed, s.blink_counter, s.closed_counter + 1, s.in_blink_phase⟩
  | .opening =>
      if avg_ear > EAR_OPEN_THRESHOLD then
        let b := s.blink_counter - 1
        if b ≤ 0 then
          ⟨.open_, 0, 0, false⟩
        else
          ⟨.opening, b, s.closed_counter, s.in_blink_phase⟩
      else
        ⟨.closed, s.blink_counter, s.closed_counter, s.in_blink_phase⟩

/-- Folding a list of average-EAR samples through the eye state machine. -/
def runEye (s : EyeSt) (ears : List ℚ) : EyeSt :=
  ears.foldl update_eye_state s

/-! ## Per-frame blink reporting (eye_detector.py, detect_eyes_state lines 267-293) -/

/-- The three per-frame blink-report flags of a `DetectionResult`:
`eyes_closed`, `is_blinking`, `is_short_blink`. -/
structure Report where
  eyes_closed : Bool
  is_blinking : Bool
  is_short_blink : Bool
deriving DecidableEq, Repr

/-- The blink/eyes-closed reporting logic of `detect_eyes_state` (lines
267-293), as a function of the post-update machine state. -/
def reportOf (s : EyeSt) : Report :=
  match s.eye_state with
  | .closed =>
      if s.closed_counter ≤ BLINK_FRAME_THRESHOLD then
        ⟨false, true, true⟩
      else
        ⟨true, false, false⟩
  | .closing =>
      if s.blink_counter ≤ BLINK_FRAME_THRESHOLD ∧ s.in_blink_phase then
        if s.blink_counter ≤ 3 then ⟨false, true, true⟩ else ⟨false, true, false⟩
      else
        ⟨false, false, false⟩
  | _ => ⟨false, false, false⟩

/-- The list of machine states after each successive EAR sample. -/
def eyeTrace (s : EyeSt) : List ℚ → List EyeSt
  | [] => []
  | e :: l =>
      let s1 := update_eye_state s e
      s1 :: eyeTrace s1 l

/-- Number of entries into the `closed` state along a state trajectory. -/
def countClosedEntries : List EyeState → ℕ
  | a :: b :: r =>
      (if a ≠ EyeState.closed ∧ b = EyeState.closed then 1 else 0) +
        countClosedEntries (b :: r)
  | _ => 0

/-- The synthetic average-EAR sequence `[0.3]*20 ++ [0.1]*6 ++ [0.3]*20`. -/
def seqC5 : List ℚ :=
  List.replicate 20 (mkRat 3 10) ++ List.replicate 6 (mkRat 1 10) ++
    List.replicate 20 (mkRat 3 10)

/-! ## Gaze state machine (eye_detector.py, MediaPipeEyeDetector.update_gazing_state) -/

/-- The two gaze states of `MediaPipeEyeDetector.gazing_state`
(`"not_gazing"`, `"gazing"`). -/
inductive GazeState where
  | not_gazing
  | gazing
deriving DecidableEq, Repr

/-- `GAZING_STABILITY_THRESHOLD = 35`. -/
abbrev GAZING_STABILITY_THRESHOLD : ℚ := 35

/-- `GAZING_CONFIRMATION_FRAMES = 12`. -/
abbrev GAZING_CONFIRMATION_FRAMES : ℕ := 12

/-- `GAZING_BREAK_FRAMES = 15`. -/
abbrev GAZING_BREAK_FRAMES : ℕ := 15

/-- The mutable gaze-tracking fields of `MediaPipeEyeDetector`:
`gazing_state`, `gazing_confirm_counter`, `gazing_break_counter`. -/
structure GazeSt where
  gazing_state : GazeState
  gazing_confirm_counter : ℕ
  gazing_break_counter : ℕ
deriving DecidableEq, Repr

/-- The reset values assigned in `__init__` and on face loss. -/
def gazeReset : GazeSt := ⟨.not_gazing, 0, 0⟩

/-- `MediaPipeEyeDetector.update_gazing_state(position_variance)`
(eye_detector.py lines 142-170). -/
def update_gazing_state (s : GazeSt) (position_variance : ℚ) : GazeSt :=
  let is_stable := position_variance < GAZING_STABILITY_THRESHOLD
  match s.gazing_state with
  | .not_gazing =>
      if is_stable then
        let c := s.gazing_confirm_counter + 1
        if c ≥ GAZING_CONFIRMATION_FRAMES then ⟨.gazing, 0, 0⟩
        else ⟨.not_gazing, c, 0⟩
      else
        ⟨.not_gazing, 0, s.gazing_break_counter⟩
  | .gazing =>
      if ¬ is_stable then
        let b := s.gazing_break_counter + 1
        if b ≥ GAZING_BREAK_FRAMES then ⟨.not_gazing, 0, 0⟩
        else ⟨.gazing, 0, b⟩
      else
        ⟨.gazing, s.gazing_confirm_counter, 0⟩

/-- Folding a list of position-variance samples through the gaze machine. -/
def runGaze (s : GazeSt) (vs : List ℚ) : GazeSt :=
  vs.foldl update_gazing_state s

/-! ## Per-frame detection (eye_detector.py, MediaPipeEyeDetector.detect_eyes_state)

The landmark model, geometry and history buffers are external inputs to the
state machines: a processed frame is abstracted as either "no face" or a
face observation carrying the computed average EAR together with the
combined position variance when both position histories hold at least 5
samples (`none` models the short-history branch of lines 313-325). -/

/-- One processed camera frame, as seen by the state machines. -/
inductive FrameObs where
  | noface
  | face (avg_ear : ℚ) (posVar : Option ℚ)

/-- The internal mutable state of the detector relevant to the claims:
the eye machine fields and the gaze machine fields. -/
structure DetSt where
  eye : EyeSt
  gaze : GazeSt
deriving DecidableEq, Repr

/-- The detector state as reset in `__init__` and on face loss (lines
207-214). -/
def detReset : DetSt := ⟨eyeReset, gazeReset⟩

/-- The string tag `detect_eyes_state` stores for an internal eye state. -/
def eyeStateName : EyeState → String
  | .open_ => "open"
  | .closing => "closing"
  | .closed => "closed"
  | .opening => "opening"

/-- The string tag stored for a gaze state. -/
def gazeStateName : GazeState → String
  | .not_gazing => "not_gazing"
  | .gazing => "gazing"

/-- The fields of the per-frame `detection_result` dictionary that the
state machines determine (lines 184-198; the geometric fields `left_ear`,
`right_ear`, `eye_center` and `fps` are external data not modelled). -/
structure DetectionResult where
  face_detected : Bool
  eyes_closed : Bool
  is_blinking : Bool
  is_short_blink : Bool
  eye_state : String
  is_gazing : Bool
  gazing_state : String
  avg_ear : ℚ
  position_variance : ℚ
deriving DecidableEq, Repr

/-- The default `detection_result` built at lines 184-198, before any
branch runs (also returned unchanged on a per-frame processing error). -/
def defaultResult : DetectionResult :=
  { face_detected := false
    eyes_closed := false
    is_blinking := false
    is_short_blink := false
    eye_state := "unknown"
    is_gazing := false
    gazing_state := "not_gazing"
    avg_ear := 0
    position_variance := 1000 }

/-- `MediaPipeEyeDetector.detect_eyes_state` (lines 184-327) restricted to
the state-machine content: returns the new internal state and the
per-frame result. -/
def detect_eyes_state (s : DetSt) (obs : FrameObs) : DetSt × DetectionResult :=
  match obs with
  | .noface =>
      (detReset,
        { defaultResult with
            eyes_closed := true
            eye_state := "no_face"
            gazing_state := "not_gazing" })
  | .face avg_ear posVar =>
      let e1 := update_eye_state s.eye avg_ear
      let rep := reportOf e1
      match posVar with
      | some v =>
          let g1 := update_gazing_state s.gaze v
          (⟨e1, g1⟩,
            { face_detected := true
              eyes_closed := rep.eyes_closed
              is_blinking := rep.is_blinking
              is_short_blink := rep.is_short_blink
              eye_state := eyeStateName e1.eye_state
              is_gazing := decide (g1.gazing_state = .gazing)
              gazing_state := gazeStateName g1.gazing_state
              avg_ear := avg_ear
              position_variance := v })
      | none =>
          (⟨e1, s.gaze⟩,
            { face_detected := true
              eyes_closed := rep.eyes_closed
              is_blinking := rep.is_blinking
              is_short_blink := rep.is_short_blink
              eye_state := eyeStateName e1.eye_state
              is_gazing := false
              gazing_state := "not_gazing"
              avg_ear := avg_ear
              position_variance := 1000 })

/-! ## Playback clock (video_player.py, class VideoPlayerThread)

Wall-clock instants are rationals supplied as explicit `now` arguments in
place of `time.time()`.  Audio-process and decoder handles are external
resources with no effect on the clock fields and are omitted.  The
`_pause_position` attribute is embedded as `pause_position`. -/

/-- The playback-clock fields of `VideoPlayerThread` (lines 16-54). -/
structure ClockState where
  playing : Bool
  paused : Bool
  stopped : Bool
  video_fps : ℚ
  total_frames : ℕ
  video_duration : ℚ
  current_frame : ℤ
  play_start_time : ℚ
  accumulated_pause_time : ℚ
  last_pause_start : ℚ
  base_timestamp : ℚ
  pause_position : ℚ
  seek_requested : Bool
  seek_target : ℤ
  seek_timestamp : ℚ
deriving DecidableEq, Repr

/-- The state built by `__init__`. -/
def initClock : ClockState :=
  { playing := false
    paused := false
    stopped := true
    video_fps := 30
    total_frames := 0
    video_duration := 0
    current_frame := 0
    play_start_time := 0
    accumulated_pause_time := 0
    last_pause_start := 0
    base_timestamp := 0
    pause_position := 0
    seek_requested := false
    seek_target := 0
    seek_timestamp := 0 }

/-- `load_video` (lines 56-142), parameterized by the stream metadata the
media library reports for the file: average frame rate `fps` and duration
`dur` in seconds.  `total_frames = int(dur * fps)` when both are positive
(line 96-99); the state fields are reset as in lines 108-119. -/
def clockLoad (fps dur : ℚ) (s : ClockState) : ClockState :=
  { s with
      video_fps := fps
      video_duration := dur
      total_frames := if 0 < fps ∧ 0 < dur then (⌊dur * fps⌋).toNat else 0
      playing := false
      paused := false
      stopped := true
      current_frame := 0
      pause_position := 0
      play_start_time := 0
      accumulated_pause_time := 0
      last_pause_start := 0
      base_timestamp := 0 }

/-- `play` (lines 302-324), at wall-clock time `now`. -/
def clockPlay (now : ℚ) (s : ClockState) : ClockState :=
  let s1 :=
    if s.stopped then
      { s with
          play_start_time := now - s.pause_position
          base_timestamp := s.pause_position }
    else if s.paused then
      let apt := s.accumulated_pause_time + (now - s.last_pause_start)
      { s with
          accumulated_pause_time := apt
          play_start_time := now - s.base_timestamp - apt }
    else s
  { s1 with playing := true, paused := false, stopped := false }

/-- `pause` (lines 326-344), at wall-clock time `now`. -/
def clockPause (now : ℚ) (s : ClockState) : ClockState :=
  let s1 :=
    if s.playing ∧ ¬ s.stopped then
      let elapsed := now - s.play_start_time - s.accumulated_pause_time
      let b := max 0 (min elapsed s.video_duration)
      { s with
          base_timestamp := b
          pause_position := b
          last_pause_start := now }
    else s
  { s1 with paused := true, playing := false }

/-- `stop` (lines 346-361). -/
def clockStop (s : ClockState) : ClockState :=
  { s with
      playing := false
      paused := false
      stopped := true
      current_frame := 0
      pause_position := 0
      play_start_time := 0
      accumulated_pause_time := 0
      last_pause_start := 0
      base_timestamp := 0 }

/-- `get_position` (lines 363-374), at wall-clock time `now`. -/
def get_position (now : ℚ) (s : ClockState) : ℚ :=
  if 0 < s.video_duration then
    if s.playing then
      min ((now - s.play_start_time - s.accumulated_pause_time) / s.video_duration) 1
    else
      min (s.base_timestamp / s.video_duration) 1
  else 0

/-- `seek(frame_number)` (lines 376-407), at wall-clock time `now`. -/
def clockSeek (now : ℚ) (frame_number : ℤ) (s : ClockState) : ClockState :=
  if (s.total_frames : ℤ) ≤ 0 then s
  else
    let f := max 0 (min frame_number ((s.total_frames : ℤ) - 1))
    let ts := if 0 < s.video_fps then (f : ℚ) / s.video_fps else 0
    let s1 :=
      { s with
          seek_requested := true
          seek_target := f
          seek_timestamp := ts
          base_timestamp := ts
          current_frame := f }
    if s.playing then
      { s1 with
          play_start_time := now - ts
          accumulated_pause_time := 0 }
    else
      { s1 with pause_position := ts }

/-- `_get_frame_at_time(target_time)` (lines 251-275) over an abstract
decoded stream: given the presentation timestamps the demuxer yields after
the container seek, the first frame whose timestamp is at or after the
target is returned. -/
def get_frame_at_time (frame_times : List ℚ) (target_time : ℚ) : Option ℚ :=
  frame_times.find? (fun t => target_time ≤ t)

/-- The clock-mutating calls reachable from outside the playback loop. -/
inductive ClockEv where
  | load (fps dur : ℚ)
  | play (now : ℚ)
  | pause (now : ℚ)
  | stop
  | seek (now : ℚ) (frame_number : ℤ)

/-- One clock call. -/
def clockStep (s : ClockState) : ClockEv → ClockState
  | .load fps dur => clockLoad fps dur s
  | .play now => clockPlay now s
  | .pause now => clockPause now s
  | .stop => clockStop s
  | .seek now fn => clockSeek now fn s

/-- A sequence of clock calls from the freshly constructed state. -/
def runClock (evs : List ClockEv) : ClockState :=
  evs.foldl clockStep initClock

/-- Well-formedness of an event: a loaded media file has nonnegative
duration (the media library reports durations in seconds). -/
def ClockEvWF : ClockEv → Prop
  | .load _ dur => 0 ≤ dur
  | _ => True

instance (e : ClockEv) : Decidable (ClockEvWF e) := by
  cases e <;> simp only [ClockEvWF] <;> infer_instance

/-- The inductive invariant of the playback clock state: nonnegative
duration, `base_timestamp` and `pause_position` within `[0, duration]`,
consistent frame metadata, `playing` mutually exclusive with the other two
flags, and at least one flag set. -/
def ClockInv (s : ClockState) : Prop :=
  0 ≤ s.video_duration ∧
  (0 ≤ s.base_timestamp ∧ s.base_timestamp ≤ s.video_duration) ∧
  (0 ≤ s.pause_position ∧ s.pause_position ≤ s.video_duration) ∧
  (0 < s.total_frames →
    0 < s.video_fps ∧ (s.total_frames : ℚ) ≤ s.video_duration * s.video_fps) ∧
  (s.playing = true → s.paused = false ∧ s.stopped = false) ∧
  (s.playing = true ∨ s.paused = true ∨ s.stopped = true)

/-- A concrete playing clock state over a 300-frame, 30-fps, 10-second
video, used to witness claim C9. -/
def seekWitnessState : ClockState :=
  { playing := true, paused := false, stopped := false, video_fps := 30,
    total_frames := 300, video_duration := 10, current_frame := 0,
    play_start_time := 1, accumulated_pause_time := 2, last_pause_start := 0,
    base_timestamp := 0, pause_position := 0, seek_requested := false,
    seek_target := 0, seek_timestamp := 0 }

/-! ## Command arbiter (video_capture.py, VideoCaptureThread.run, lines 189-229)

Per processed frame the capture loop selects a candidate command from face
presence, `eyes_closed` and `is_gazing`, and forwards it only when it
differs from the last forwarded command.  A frame is abstracted as its
wall-clock time together with either a face observation (the two flags read
from the detection result) or "no face". -/

/-- The two command strings emitted through `command_detected`. -/
inductive Cmd where
  | play
  | pause
deriving DecidableEq, Repr

/-- A processed capture frame as seen by the arbiter. -/
inductive CapFrame where
  | face (eyes_closed is_gazing : Bool)
  | noface
deriving DecidableEq, Repr

/-- The arbiter fields of `VideoCaptureThread`: `last_command` (initially
`None`) and `last_face_detected_time`. -/
structure ArbSt where
  last_command : Option Cmd
  last_face_detected_time : ℚ
deriving DecidableEq, Repr

/-- The candidate command of one loop iteration (lines 189-214): on a face
frame, `pause` when eyes are closed or the user is not gazing, else `play`;
on a no-face frame, `pause` once more than 1 second has passed since the
last face was seen, else no command. -/
def arbCandidate (s : ArbSt) (now : ℚ) (f : CapFrame) : Option Cmd :=
  match f with
  | .face ec g => some (if ec || !g then Cmd.pause else Cmd.play)
  | .noface =>
      if now - s.last_face_detected_time > 1 then some Cmd.pause else none

/-- One loop iteration (lines 189-229): update `last_face_detected_time` on
a face frame, then emit the candidate only if it differs from
`last_command` (lines 225-229), recording it as the new `last_command`. -/
def arbStep (s : ArbSt) (now : ℚ) (f : CapFrame) : ArbSt × Option Cmd :=
  let s1 :=
    match f with
    | .face _ _ => { s with last_face_detected_time := now }
    | .noface => s
  match arbCandidate s now f with
  | some c =>
      if some c ≠ s.last_command then
        ({ s1 with last_command := some c }, some c)
      else (s1, none)
  | none => (s1, none)

/-- Running the arbiter over a list of timed frames, collecting the emitted
commands in order. -/
def arbRun (s : ArbSt) : List (ℚ × CapFrame) → ArbSt × List Cmd
  | [] => (s, [])
  | (t, f) :: rest =>
      let st := arbStep s t f
      let r := arbRun st.1 rest
      (r.1, (match st.2 with | some c => [c] | none => []) ++ r.2)

/-- The emitted command sequence of a run. -/
def arbEmitted (s : ArbSt) (frames : List (ℚ × CapFrame)) : List Cmd :=
  (arbRun s frames).2

/-! ## Theorems -/

/-- `runEye` on a cons steps once and continues. -/
theorem runEye_cons (s : EyeSt) (e : ℚ) (l : List ℚ) :
    runEye s (e :: l) = runEye (update_eye_state s e) l := rfl

/-- `runEye` distributes over list concatenation. -/
theorem runEye_append (s : EyeSt) (l1 l2 : List ℚ) :
    runEye s (l1 ++ l2) = runEye (runEye s l1) l2 :=
  List.foldl_append update_eye_state s l1 l2

/-- While in `closing` with all samples below the blink threshold and the
counter staying at or below `BLINK_FRAME_THRESHOLD`, the counter just
accumulates. -/
theorem closing_low_run (ears : List ℚ) :
    ∀ k : ℤ, 1 ≤ k → k + ears.length ≤ 4 →
    (∀ x ∈ ears, x < EAR_BLINK_THRESHOLD) →
    runEye ⟨.closing, k, 0, true⟩ ears = ⟨.closing, k + ears.length, 0, true⟩ := by
  induction ears with
  | nil => intro k h1 _ _; simp [runEye]
  | cons e tl ih =>
      intro k h1 hk hall
      have he : e < EAR_BLINK_THRESHOLD := hall e (List.mem_cons_self e tl)
      have hlen : ((e :: tl).length : ℤ) = (tl.length : ℤ) + 1 := by
        simp
      have hnot : ¬ (k + 1 > BLINK_FRAME_THRESHOLD) := by
        rw [hlen] at hk
        simp only [BLINK_FRAME_THRESHOLD]
        omega
      have step : update_eye_state ⟨.closing, k, 0, true⟩ e
          = ⟨.closing, k + 1, 0, true⟩ := by
        simp [update_eye_state, he, hnot]
      have hk2 : (k + 1) + (tl.length : ℤ) ≤ 4 := by rw [hlen] at hk; omega
      have hrec := ih (k + 1) (by omega) hk2
        (fun x hx => hall x (List.mem_cons_of_mem e hx))
      rw [runEye_cons, step, hrec, hlen]
      have : k + 1 + (tl.length : ℤ) = k + ((tl.length : ℤ) + 1) := by ring
      rw [this]

/-- Claim C3: starting the eye state machine in `open` and feeding an average
EAR below `EAR_BLINK_THRESHOLD = 0.18` for exactly `BLINK_FRAME_THRESHOLD + 1 = 5`
consecutive samples drives it open → closing → closed: the closing-frame
counter starts at 1 on the first sample and is incremented on each further
sample (after `i ≤ 4` samples the state is `closing` with counter `i`), and on
the fifth sample the counter 5 exceeds the threshold so the machine enters
`closed` with the closed-duration counter frozen at 5.  If instead the EAR
rises back above 0.18 before the counter exceeds the threshold, the machine
reverts to `open` with the counter reset and the in-blink-phase flag
cleared. -/
theorem claim_C3 :
    (∀ ears : List ℚ, ears.length = 5 → (∀ x ∈ ears, x < EAR_BLINK_THRESHOLD) →
      (∀ i : ℕ, 1 ≤ i → i ≤ 4 →
        runEye eyeReset (ears.take i) = ⟨.closing, (i : ℤ), 0, true⟩) ∧
      runEye eyeReset ears = ⟨.closed, 5, 5, true⟩) ∧
    (∀ ears : List ℚ, 1 ≤ ears.length → ears.length ≤ 4 →
      (∀ x ∈ ears, x < EAR_BLINK_THRESHOLD) →
      ∀ e : ℚ, EAR_BLINK_THRESHOLD < e →
      runEye eyeReset (ears ++ [e]) = eyeReset) := by
  constructor
  · intro ears h5 hall
    obtain ⟨a, rest, rfl⟩ : ∃ a rest, ears = a :: rest := by
      cases ears with
      | nil => simp at h5
      | cons a rest => exact ⟨a, rest, rfl⟩
    have ha : a < EAR_BLINK_THRESHOLD := hall a (List.mem_cons_self a rest)
    have hrest : rest.length = 4 := by simpa using h5
    have hallr : ∀ x ∈ rest, x < EAR_BLINK_THRESHOLD :=
      fun x hx => hall x (List.mem_cons_of_mem a hx)
    have step1 : update_eye_state eyeReset a = ⟨.closing, 1, 0, true⟩ := by
      simp [update_eye_state, eyeReset, ha]
    constructor
    · intro i h1 h4
      obtain ⟨j, rfl⟩ : ∃ j, i = j + 1 := ⟨i - 1, by omega⟩
      have htj : (rest.take j).length = j := by
        rw [List.length_take]; omega
      have hcons : (a :: rest).take (j + 1) = a :: rest.take j :=
        List.take_succ_cons
      have hlow : ∀ x ∈ rest.take j, x < EAR_BLINK_THRESHOLD :=
        fun x hx => hallr x (List.take_subset j rest hx)
      have hrun := closing_low_run (rest.take j) 1 le_rfl
        (by rw [htj]; omega) hlow
      rw [hcons, runEye_cons, step1, hrun, htj]
      have : (1 : ℤ) + (j : ℤ) = ((j + 1 : ℕ) : ℤ) := by push_cast; ring
      rw [this]
    · have hsplit : rest.take 3 ++ rest.drop 3 = rest := List.take_append_drop 3 rest
      have ht3 : (rest.take 3).length = 3 := by rw [List.length_take]; omega
      have hlow3 : ∀ x ∈ rest.take 3, x < EAR_BLINK_THRESHOLD :=
        fun x hx => hallr x (List.take_subset 3 rest hx)
      have hrun3 := closing_low_run (rest.take 3) 1 le_rfl (by rw [ht3]; omega) hlow3
      rw [ht3] at hrun3
      obtain ⟨y, hy⟩ : ∃ y, rest.drop 3 = [y] := by
        apply List.length_eq_one.mp
        rw [List.length_drop]; omega
      have hymem : y ∈ rest := List.drop_subset 3 rest (by rw [hy]; exact List.mem_singleton_self y)
      have hylow : y < EAR_BLINK_THRESHOLD := hallr y hymem
      rw [runEye_cons, step1, ← hsplit, runEye_append, hrun3, hy]
      have h5gt : (1 : ℤ) + (3 : ℕ) + 1 > BLINK_FRAME_THRESHOLD := by decide
      simp [runEye, update_eye_state, hylow, h5gt]
      decide
  · intro ears h1 h4 hall e he
    obtain ⟨a, rest, rfl⟩ : ∃ a rest, ears = a :: rest := by
      cases ears with
      | nil => simp at h1
      | cons a rest => exact ⟨a, rest, rfl⟩
    have ha : a < EAR_BLINK_THRESHOLD := hall a (List.mem_cons_self a rest)
    have hrest : rest.length ≤ 3 := by
      have : (a :: rest).length = rest.length + 1 := rfl
      omega
    have hallr : ∀ x ∈ rest, x < EAR_BLINK_THRESHOLD :=
      fun x hx => hall x (List.mem_cons_of_mem a hx)
    have step1 : update_eye_state eyeReset a = ⟨.closing, 1, 0, true⟩ := by
      simp [update_eye_state, eyeReset, ha]
    have hrun := closing_low_run rest 1 le_rfl (by omega) hallr
    have hne : ¬ (e < EAR_BLINK_THRESHOLD) := not_lt.mpr (le_of_lt he)
    rw [List.cons_append, runEye_cons, step1, runEye_append, hrun]
    simp [runEye, update_eye_state, hne, eyeReset]

/-- Witness for claim C3 at concrete EAR sequences: five samples of 0.1 reach
`closed` with both counters at 5, and two samples of 0.1 followed by 0.3
return the machine to its reset state. -/
theorem claim_C3_witness :
    runEye eyeReset [mkRat 1 10, mkRat 1 10, mkRat 1 10, mkRat 1 10, mkRat 1 10]
      = ⟨.closed, 5, 5, true⟩ ∧
    runEye eyeReset [mkRat 1 10, mkRat 1 10, mkRat 3 10] = eyeReset := by
  refine ⟨(claim_C3.1 [mkRat 1 10, mkRat 1 10, mkRat 1 10, mkRat 1 10, mkRat 1 10]
    rfl (by decide)).2, ?_⟩
  have := claim_C3.2 [mkRat 1 10, mkRat 1 10] (by decide) (by decide) (by decide)
    (mkRat 3 10) (by decide)
  simpa using this

/-- Claim C4 counterexample: the `opening` counter does not start at the
number of frames spent closing.  After five low-EAR samples (five frames
spent closing) and one high sample, the machine is in `opening` with
`blink_counter = 0`, not 5; one further high sample already returns it to
`open`, though the claim would require five decrements. -/
theorem claim_C4_counterexample :
    runEye eyeReset
        [mkRat 1 10, mkRat 1 10, mkRat 1 10, mkRat 1 10, mkRat 1 10, mkRat 3 10]
      = ⟨.opening, 0, 5, true⟩ ∧
    (runEye eyeReset
        [mkRat 1 10, mkRat 1 10, mkRat 1 10, mkRat 1 10, mkRat 1 10, mkRat 3 10,
         mkRat 3 10]).eye_state = .open_ := by
  decide

/-- Claim C4 (amended): on the closed → opening transition the code resets
`blink_counter` to 0 (it does not load it with the frames spent closing);
while in `opening`, a sample with EAR above `EAR_OPEN_THRESHOLD` decrements
the counter and the machine moves to `open` with all counters reset as soon
as the decremented counter is ≤ 0 (hence, entered with counter 0, on the very
first such sample); a positive decremented counter keeps it in `opening`;
and a sample with EAR at or below `EAR_OPEN_THRESHOLD` reverts it to
`closed`. -/
theorem claim_C4 :
    (∀ (b c : ℤ) (ib : Bool) (e : ℚ), e > EAR_OPEN_THRESHOLD →
      update_eye_state ⟨.closed, b, c, ib⟩ e = ⟨.opening, 0, c, ib⟩) ∧
    (∀ (c : ℤ) (ib : Bool) (e : ℚ), e > EAR_OPEN_THRESHOLD →
      update_eye_state ⟨.opening, 0, c, ib⟩ e = ⟨.open_, 0, 0, false⟩) ∧
    (∀ (b c : ℤ) (ib : Bool) (e : ℚ), e > EAR_OPEN_THRESHOLD → 0 < b - 1 →
      update_eye_state ⟨.opening, b, c, ib⟩ e = ⟨.opening, b - 1, c, ib⟩) ∧
    (∀ (b c : ℤ) (ib : Bool) (e : ℚ), ¬ (e > EAR_OPEN_THRESHOLD) →
      update_eye_state ⟨.opening, b, c, ib⟩ e = ⟨.closed, b, c, ib⟩) := by
  refine ⟨?_, ?_, ?_, ?_⟩
  · intro b c ib e he
    simp [update_eye_state, he]
  · intro c ib e he
    simp [update_eye_state, he]
  · intro b c ib e he hb
    have hnb : ¬ (b - 1 ≤ 0) := by omega
    simp [update_eye_state, he, hnb]
  · intro b c ib e he
    simp [update_eye_state, he]

/-- Witness for the amended claim C4 at concrete inputs. -/
theorem claim_C4_witness :
    update_eye_state ⟨.closed, 0, 5, true⟩ (mkRat 3 10) = ⟨.opening, 0, 5, true⟩ ∧
    update_eye_state ⟨.opening, 0, 5, true⟩ (mkRat 3 10) = ⟨.open_, 0, 0, false⟩ ∧
    update_eye_state ⟨.opening, 7, 5, true⟩ (mkRat 3 10) = ⟨.opening, 6, 5, true⟩ ∧
    update_eye_state ⟨.opening, 7, 5, true⟩ (mkRat 2 10) = ⟨.closed, 7, 5, true⟩ :=
  ⟨claim_C4.1 0 5 true (mkRat 3 10) (by decide),
   claim_C4.2.1 5 true (mkRat 3 10) (by decide),
   by
     have := claim_C4.2.2.1 7 5 true (mkRat 3 10) (by decide) (by decide)
     simpa using this,
   claim_C4.2.2.2 7 5 true (mkRat 2 10) (by decide)⟩

/-- Every element of an `eyeTrace` is the fold of some nonempty prefix. -/
theorem eyeTrace_mem (ears : List ℚ) :
    ∀ (s t : EyeSt), t ∈ eyeTrace s ears →
      ∃ i : ℕ, i < ears.length ∧ t = runEye s (ears.take (i + 1)) := by
  induction ears with
  | nil => intro s t ht; simp [eyeTrace] at ht
  | cons e l ih =>
      intro s t ht
      simp only [eyeTrace, List.mem_cons] at ht
      rcases ht with h1 | h2
      · exact ⟨0, by simp, by simp [h1, runEye]⟩
      · obtain ⟨i, hi, hval⟩ := ih (update_eye_state s e) t h2
        refine ⟨i + 1, by simp; omega, ?_⟩
        rw [List.take_succ_cons, runEye_cons]
        exact hval

/-- A nonempty run of at most 4 below-threshold samples from the reset state
leaves the machine in `closing` with the counter at the number of samples. -/
theorem low_from_reset (ears : List ℚ) (h1 : 1 ≤ ears.length) (h4 : ears.length ≤ 4)
    (hall : ∀ x ∈ ears, x < EAR_BLINK_THRESHOLD) :
    runEye eyeReset ears = ⟨.closing, (ears.length : ℤ), 0, true⟩ := by
  obtain ⟨a, rest, rfl⟩ : ∃ a rest, ears = a :: rest := by
    cases ears with
    | nil => simp at h1
    | cons a rest => exact ⟨a, rest, rfl⟩
  have ha : a < EAR_BLINK_THRESHOLD := hall a (List.mem_cons_self a rest)
  have hallr : ∀ x ∈ rest, x < EAR_BLINK_THRESHOLD :=
    fun x hx => hall x (List.mem_cons_of_mem a hx)
  have hrl : rest.length ≤ 3 := by
    have : (a :: rest).length = rest.length + 1 := rfl
    omega
  have step1 : update_eye_state eyeReset a = ⟨.closing, 1, 0, true⟩ := by
    simp [update_eye_state, eyeReset, ha]
  have hrun := closing_low_run rest 1 le_rfl (by omega) hallr
  rw [runEye_cons, step1, hrun]
  have : (1 : ℤ) + (rest.length : ℤ) = ((a :: rest).length : ℤ) := by
    simp; ring
  rw [this]

/-- Claim C5: a closure whose counters never exceed `BLINK_FRAME_THRESHOLD = 4`
is reported with `is_blinking = true` and `eyes_closed = false` — both for a
(hypothetical) `closed` state with a small closed-duration counter and for
every frame of an at-most-4-sample closure from the reset state — while a
`closed` state whose closed-duration counter exceeds the threshold is
reported as sustained eyes-closed.  Moreover the synthetic sequence
`[0.3]*20 ++ [0.1]*6 ++ [0.3]*20` produces exactly one entry into `closed`,
ends back in `open`, and reports `eyes_closed` exactly on the two frames in
which the machine sits in `closed` (the 6-sample closure exceeds the
threshold and is reported as sustained eyes-closed). -/
theorem claim_C5 :
    (∀ s : EyeSt, s.eye_state = .closed → s.closed_counter ≤ BLINK_FRAME_THRESHOLD →
      reportOf s = ⟨false, true, true⟩) ∧
    (∀ s : EyeSt, s.eye_state = .closed → s.closed_counter > BLINK_FRAME_THRESHOLD →
      (reportOf s).eyes_closed = true) ∧
    (∀ ears : List ℚ, 1 ≤ ears.length → ears.length ≤ 4 →
      (∀ x ∈ ears, x < EAR_BLINK_THRESHOLD) →
      ∀ t ∈ eyeTrace eyeReset ears,
        (reportOf t).is_blinking = true ∧ (reportOf t).eyes_closed = false) ∧
    ((runEye eyeReset seqC5).eye_state = .open_ ∧
      (eyeTrace eyeReset seqC5).map (fun t => (reportOf t).eyes_closed)
        = List.replicate 24 false ++ [true, true] ++ List.replicate 20 false ∧
      countClosedEntries
        (eyeReset.eye_state :: (eyeTrace eyeReset seqC5).map EyeSt.eye_state) = 1) := by
  refine ⟨?_, ?_, ?_, ?_⟩
  · intro s hs hc
    simp [reportOf, hs, hc]
  · intro s hs hc
    simp [reportOf, hs, not_le.mpr hc]
  · intro ears h1 h4 hall t ht
    obtain ⟨i, hi, rfl⟩ := eyeTrace_mem ears eyeReset t ht
    have hti : (ears.take (i + 1)).length = i + 1 := by
      rw [List.length_take]; omega
    have hlow : ∀ x ∈ ears.take (i + 1), x < EAR_BLINK_THRESHOLD :=
      fun x hx => hall x (List.take_subset (i + 1) ears hx)
    rw [low_from_reset (ears.take (i + 1)) (by omega) (by omega) hlow, hti]
    have hle : ((i : ℤ) + 1) ≤ BLINK_FRAME_THRESHOLD := by
      simp only [BLINK_FRAME_THRESHOLD]; omega
    constructor
    · by_cases h3 : ((i : ℤ) + 1) ≤ 3 <;>
        simp [reportOf, hle, h3]
    · by_cases h3 : ((i : ℤ) + 1) ≤ 3 <;>
        simp [reportOf, hle, h3]
  · refine ⟨by decide, by decide, by decide⟩

/-- Witness for claim C5 at concrete inputs: a `closed` state with counter 3
reports a short blink, one with counter 6 reports eyes closed, and every
frame of a 2-sample closure reports blinking without eyes-closed. -/
theorem claim_C5_witness :
    reportOf ⟨.closed, 5, 3, true⟩ = ⟨false, true, true⟩ ∧
    (reportOf ⟨.closed, 5, 6, true⟩).eyes_closed = true ∧
    ((reportOf (runEye eyeReset [mkRat 1 10, mkRat 1 10])).is_blinking = true ∧
      (reportOf (runEye eyeReset [mkRat 1 10, mkRat 1 10])).eyes_closed = false) := by
  refine ⟨claim_C5.1 ⟨.closed, 5, 3, true⟩ rfl (by decide),
    claim_C5.2.1 ⟨.closed, 5, 6, true⟩ rfl (by decide), ?_⟩
  have hmem : runEye eyeReset [mkRat 1 10, mkRat 1 10]
      ∈ eyeTrace eyeReset [mkRat 1 10, mkRat 1 10] := by decide
  exact claim_C5.2.2.1 [mkRat 1 10, mkRat 1 10] (by decide) (by decide) (by decide)
    (runEye eyeReset [mkRat 1 10, mkRat 1 10]) hmem

/-- `runGaze` on a cons steps once and continues. -/
theorem runGaze_cons (s : GazeSt) (v : ℚ) (l : List ℚ) :
    runGaze s (v :: l) = runGaze (update_gazing_state s v) l := rfl

/-- `runGaze` distributes over list concatenation. -/
theorem runGaze_append (s : GazeSt) (l1 l2 : List ℚ) :
    runGaze s (l1 ++ l2) = runGaze (runGaze s l1) l2 :=
  List.foldl_append update_gazing_state s l1 l2

/-- Stable samples in `not_gazing` accumulate the confirm counter while it
stays below the confirmation threshold. -/
theorem not_gazing_stable_run (vs : List ℚ) :
    ∀ k : ℕ, k + vs.length ≤ 11 →
    (∀ v ∈ vs, v < GAZING_STABILITY_THRESHOLD) →
    runGaze ⟨.not_gazing, k, 0⟩ vs = ⟨.not_gazing, k + vs.length, 0⟩ := by
  induction vs with
  | nil => intro k _ _; simp [runGaze]
  | cons v tl ih =>
      intro k hk hall
      have hv : v < GAZING_STABILITY_THRESHOLD := hall v (List.mem_cons_self v tl)
      have hlen : (v :: tl).length = tl.length + 1 := rfl
      have hnot : ¬ (k + 1 ≥ GAZING_CONFIRMATION_FRAMES) := by
        rw [hlen] at hk
        simp only [GAZING_CONFIRMATION_FRAMES]
        omega
      have step : update_gazing_state ⟨.not_gazing, k, 0⟩ v = ⟨.not_gazing, k + 1, 0⟩ := by
        simp [update_gazing_state, hv, hnot]
      have hrec := ih (k + 1) (by rw [hlen] at hk; omega)
        (fun x hx => hall x (List.mem_cons_of_mem v hx))
      rw [runGaze_cons, step, hrec, hlen]
      congr 1
      omega

/-- Unstable samples in `gazing` accumulate the break counter while it stays
below the break threshold (confirm counter pinned at 0). -/
theorem gazing_unstable_run (vs : List ℚ) :
    ∀ k : ℕ, k + vs.length ≤ 14 →
    (∀ v ∈ vs, ¬ (v < GAZING_STABILITY_THRESHOLD)) →
    runGaze ⟨.gazing, 0, k⟩ vs = ⟨.gazing, 0, k + vs.length⟩ := by
  induction vs with
  | nil => intro k _ _; simp [runGaze]
  | cons v tl ih =>
      intro k hk hall
      have hv : ¬ (v < GAZING_STABILITY_THRESHOLD) := hall v (List.mem_cons_self v tl)
      have hlen : (v :: tl).length = tl.length + 1 := rfl
      have hnot : ¬ (k + 1 ≥ GAZING_BREAK_FRAMES) := by
        rw [hlen] at hk
        simp only [GAZING_BREAK_FRAMES]
        omega
      have step : update_gazing_state ⟨.gazing, 0, k⟩ v = ⟨.gazing, 0, k + 1⟩ := by
        simp [update_gazing_state, hv, hnot]
      have hrec := ih (k + 1) (by rw [hlen] at hk; omega)
        (fun x hx => hall x (List.mem_cons_of_mem v hx))
      rw [runGaze_cons, step, hrec, hlen]
      congr 1
      omega

/-- Claim C6: from `not_gazing` with zeroed counters, 12 consecutive stable
samples (variance below 35) yield `gazing`; from `gazing`, 15 consecutive
unstable samples yield `not_gazing`; from `gazing`, 14 unstable samples
followed by one stable sample leave the machine in `gazing` with the break
counter reset to 0; any stable sample while gazing zeroes the break counter
(keeping `gazing`), and any unstable sample while not gazing zeroes the
confirm counter (keeping `not_gazing`). -/
theorem claim_C6 :
    (∀ vs : List ℚ, vs.length = 12 → (∀ v ∈ vs, v < GAZING_STABILITY_THRESHOLD) →
      runGaze gazeReset vs = ⟨.gazing, 0, 0⟩) ∧
    (∀ vs : List ℚ, vs.length = 15 → (∀ v ∈ vs, ¬ (v < GAZING_STABILITY_THRESHOLD)) →
      runGaze ⟨.gazing, 0, 0⟩ vs = ⟨.not_gazing, 0, 0⟩) ∧
    (∀ (vs : List ℚ) (v : ℚ), vs.length = 14 →
      (∀ x ∈ vs, ¬ (x < GAZING_STABILITY_THRESHOLD)) → v < GAZING_STABILITY_THRESHOLD →
      runGaze ⟨.gazing, 0, 0⟩ (vs ++ [v]) = ⟨.gazing, 0, 0⟩) ∧
    (∀ (c b : ℕ) (v : ℚ), v < GAZING_STABILITY_THRESHOLD →
      update_gazing_state ⟨.gazing, c, b⟩ v = ⟨.gazing, c, 0⟩) ∧
    (∀ (c b : ℕ) (v : ℚ), ¬ (v < GAZING_STABILITY_THRESHOLD) →
      update_gazing_state ⟨.not_gazing, c, b⟩ v = ⟨.not_gazing, 0, b⟩) := by
  refine ⟨?_, ?_, ?_, ?_, ?_⟩
  · intro vs h12 hall
    have hsplit : vs.take 11 ++ vs.drop 11 = vs := List.take_append_drop 11 vs
    have ht : (vs.take 11).length = 11 := by rw [List.length_take]; omega
    have hlow : ∀ x ∈ vs.take 11, x < GAZING_STABILITY_THRESHOLD :=
      fun x hx => hall x (List.take_subset 11 vs hx)
    have hrun := not_gazing_stable_run (vs.take 11) 0 (by omega) hlow
    rw [ht] at hrun
    obtain ⟨y, hy⟩ : ∃ y, vs.drop 11 = [y] := by
      apply List.length_eq_one.mp
      rw [List.length_drop]; omega
    have hymem : y ∈ vs := List.drop_subset 11 vs (by rw [hy]; exact List.mem_singleton_self y)
    have hystable : y < GAZING_STABILITY_THRESHOLD := hall y hymem
    rw [← hsplit, runGaze_append, gazeReset, hrun, hy]
    have h12ge : 0 + 11 + 1 ≥ GAZING_CONFIRMATION_FRAMES := by decide
    simp [runGaze, update_gazing_state, hystable, h12ge]
  · intro vs h15 hall
    have hsplit : vs.take 14 ++ vs.drop 14 = vs := List.take_append_drop 14 vs
    have ht : (vs.take 14).length = 14 := by rw [List.length_take]; omega
    have hun : ∀ x ∈ vs.take 14, ¬ (x < GAZING_STABILITY_THRESHOLD) :=
      fun x hx => hall x (List.take_subset 14 vs hx)
    have hrun := gazing_unstable_run (vs.take 14) 0 (by omega) hun
    rw [ht] at hrun
    obtain ⟨y, hy⟩ : ∃ y, vs.drop 14 = [y] := by
      apply List.length_eq_one.mp
      rw [List.length_drop]; omega
    have hymem : y ∈ vs := List.drop_subset 14 vs (by rw [hy]; exact List.mem_singleton_self y)
    have hyun : ¬ (y < GAZING_STABILITY_THRESHOLD) := hall y hymem
    rw [← hsplit, runGaze_append, hrun, hy]
    have h15ge : 0 + 14 + 1 ≥ GAZING_BREAK_FRAMES := by decide
    simp [runGaze, update_gazing_state, hyun, h15ge]
  · intro vs v h14 hall hv
    have hrun := gazing_unstable_run vs 0 (by omega) hall
    rw [h14] at hrun
    rw [runGaze_append, hrun]
    simp [runGaze, update_gazing_state, hv]
  · intro c b v hv
    simp [update_gazing_state, hv]
  · intro c b v hv
    simp [update_gazing_state, hv]

/-- Witness for claim C6 at concrete variance sequences (variance 10 is
stable, variance 100 unstable). -/
theorem claim_C6_witness :
    runGaze gazeReset (List.replicate 12 (10 : ℚ)) = ⟨.gazing, 0, 0⟩ ∧
    runGaze ⟨.gazing, 0, 0⟩ (List.replicate 15 (100 : ℚ)) = ⟨.not_gazing, 0, 0⟩ ∧
    runGaze ⟨.gazing, 0, 0⟩ (List.replicate 14 (100 : ℚ) ++ [(10 : ℚ)]) = ⟨.gazing, 0, 0⟩ ∧
    update_gazing_state ⟨.gazing, 3, 7⟩ (10 : ℚ) = ⟨.gazing, 3, 0⟩ ∧
    update_gazing_state ⟨.not_gazing, 3, 7⟩ (100 : ℚ) = ⟨.not_gazing, 0, 7⟩ :=
  ⟨claim_C6.1 (List.replicate 12 (10 : ℚ)) (by decide) (by decide),
   claim_C6.2.1 (List.replicate 15 (100 : ℚ)) (by decide) (by decide),
   claim_C6.2.2.1 (List.replicate 14 (100 : ℚ)) (10 : ℚ) (by decide) (by decide) (by decide),
   claim_C6.2.2.2.1 3 7 (10 : ℚ) (by decide),
   claim_C6.2.2.2.2 3 7 (100 : ℚ) (by decide)⟩

/-- Claim C7: processing a frame in which no face is detected forces the
internal detector state, whatever it was, back to `eye_state = open` and
`gazing_state = not_gazing` with the blink counter, closed counter,
in-blink-phase flag, gazing confirm counter and gazing break counter all
zeroed, on that very frame. -/
theorem claim_C7 :
    ∀ s : DetSt,
      (detect_eyes_state s .noface).1
        = ⟨⟨.open_, 0, 0, false⟩, ⟨.not_gazing, 0, 0⟩⟩ := by
  intro s
  rfl

/-- Claim C10: a no-face frame is reported with `face_detected = false`,
`eyes_closed = true` and `eye_state = "no_face"`, the pre-detection default
result carries `eye_state = "unknown"`, and both of those strings lie
outside the four values the eye-state enum can produce, even though the
internal machine is simultaneously reset to `open`. -/
theorem claim_C10 :
    (∀ s : DetSt,
      (detect_eyes_state s .noface).2.face_detected = false ∧
      (detect_eyes_state s .noface).2.eyes_closed = true ∧
      (detect_eyes_state s .noface).2.eye_state = "no_face" ∧
      (detect_eyes_state s .noface).1.eye.eye_state = .open_) ∧
    defaultResult.eye_state = "unknown" ∧
    (∀ e : EyeState, eyeStateName e ≠ "no_face" ∧ eyeStateName e ≠ "unknown") := by
  refine ⟨fun s => ⟨rfl, rfl, rfl, rfl⟩, rfl, fun e => ?_⟩
  cases e <;> exact ⟨by decide, by decide⟩

/-- The initial clock state satisfies the invariant. -/
theorem clockInv_init : ClockInv initClock := by
  refine ⟨le_refl 0, ⟨le_refl 0, le_refl 0⟩, ⟨le_refl 0, le_refl 0⟩, ?_, ?_, ?_⟩
  · intro h; simp [initClock] at h
  · intro h; simp [initClock] at h
  · right; right; rfl

/-- Every well-formed clock call preserves the invariant. -/
theorem clockInv_step (s : ClockState) (e : ClockEv)
    (hs : ClockInv s) (he : ClockEvWF e) : ClockInv (clockStep s e) := by
  obtain ⟨hdur, ⟨hb0, hbd⟩, ⟨hp0, hpd⟩, htf, hflag, hone⟩ := hs
  cases e with
  | load fps dur =>
      have hd : 0 ≤ dur := he
      refine ⟨hd, ⟨le_refl 0, hd⟩, ⟨le_refl 0, hd⟩, ?_, ?_, ?_⟩
      · intro hpos
        simp only [clockStep, clockLoad] at hpos ⊢
        by_cases hcond : 0 < fps ∧ 0 < dur
        · obtain ⟨hfps, hdpos⟩ := hcond
          refine ⟨hfps, ?_⟩
          rw [if_pos ⟨hfps, hdpos⟩]
          have hprod : (0 : ℚ) ≤ dur * fps := le_of_lt (mul_pos hdpos hfps)
          have hfl : (0 : ℤ) ≤ ⌊dur * fps⌋ := Int.floor_nonneg.mpr hprod
          have hcast : (((⌊dur * fps⌋).toNat : ℕ) : ℚ) = ((⌊dur * fps⌋ : ℤ) : ℚ) := by
            exact_mod_cast congrArg (fun z : ℤ => (z : ℚ)) (Int.toNat_of_nonneg hfl)
          rw [hcast]
          exact_mod_cast Int.floor_le (α := ℚ) (dur * fps)
        · rw [if_neg hcond] at hpos
          simp at hpos
      · intro h; simp [clockStep, clockLoad] at h
      · right; right; rfl
  | play now =>
      simp only [clockStep, clockPlay]
      split_ifs with h1 h2
      · exact ⟨hdur, ⟨hp0, hpd⟩, ⟨hp0, hpd⟩, htf, fun _ => ⟨rfl, rfl⟩, Or.inl rfl⟩
      · exact ⟨hdur, ⟨hb0, hbd⟩, ⟨hp0, hpd⟩, htf, fun _ => ⟨rfl, rfl⟩, Or.inl rfl⟩
      · exact ⟨hdur, ⟨hb0, hbd⟩, ⟨hp0, hpd⟩, htf, fun _ => ⟨rfl, rfl⟩, Or.inl rfl⟩
  | pause now =>
      simp only [clockStep, clockPause]
      split_ifs with h1
      · refine ⟨hdur, ⟨?_, ?_⟩, ⟨?_, ?_⟩, htf, ?_, Or.inr (Or.inl rfl)⟩
        · exact le_max_left 0 _
        · exact max_le hdur (min_le_right _ _)
        · exact le_max_left 0 _
        · exact max_le hdur (min_le_right _ _)
        · intro h; simp at h
      · refine ⟨hdur, ⟨hb0, hbd⟩, ⟨hp0, hpd⟩, htf, ?_, Or.inr (Or.inl rfl)⟩
        intro h; simp at h
  | stop =>
      exact ⟨hdur, ⟨le_refl 0, hdur⟩, ⟨le_refl 0, hdur⟩, htf,
        fun h => by simp [clockStep, clockStop] at h, Or.inr (Or.inr rfl)⟩
  | seek now fn =>
      by_cases h1 : (s.total_frames : ℤ) ≤ 0
      · simp only [clockStep, clockSeek, if_pos h1]
        exact ⟨hdur, ⟨hb0, hbd⟩, ⟨hp0, hpd⟩, htf, hflag, hone⟩
      · have htfpos : 0 < s.total_frames := by omega
        obtain ⟨hfps, htfq⟩ := htf htfpos
        have hf0 : (0 : ℤ) ≤ max 0 (min fn ((s.total_frames : ℤ) - 1)) := le_max_left 0 _
        have hf1 : max 0 (min fn ((s.total_frames : ℤ) - 1)) ≤ (s.total_frames : ℤ) - 1 := by
          apply max_le
          · omega
          · exact min_le_right _ _
        have hts0 : 0 ≤ ((max 0 (min fn ((s.total_frames : ℤ) - 1)) : ℤ) : ℚ) / s.video_fps :=
          div_nonneg (by exact_mod_cast hf0) (le_of_lt hfps)
        have htsd : ((max 0 (min fn ((s.total_frames : ℤ) - 1)) : ℤ) : ℚ) / s.video_fps
            ≤ s.video_duration := by
          rw [div_le_iff₀ hfps]
          have hc : ((max 0 (min fn ((s.total_frames : ℤ) - 1)) : ℤ) : ℚ)
              ≤ (s.total_frames : ℚ) - 1 := by
            exact_mod_cast hf1
          linarith
        by_cases hplay : s.playing = true
        · simp only [clockStep, clockSeek, if_neg h1, if_pos hfps, if_pos hplay]
          exact ⟨hdur, ⟨hts0, htsd⟩, ⟨hp0, hpd⟩, htf, hflag, hone⟩
        · simp only [clockStep, clockSeek, if_neg h1, if_pos hfps,
            if_neg hplay]
          exact ⟨hdur, ⟨hts0, htsd⟩, ⟨hts0, htsd⟩, htf, hflag, hone⟩

/-- The invariant holds along any well-formed call sequence. -/
theorem clockInv_fold (evs : List ClockEv) :
    ∀ s : ClockState, ClockInv s → (∀ e ∈ evs, ClockEvWF e) →
      ClockInv (evs.foldl clockStep s) := by
  induction evs with
  | nil => intro s hs _; exact hs
  | cons e tl ih =>
      intro s hs hall
      exact ih (clockStep s e)
        (clockInv_step s e hs (hall e (List.mem_cons_self e tl)))
        (fun x hx => hall x (List.mem_cons_of_mem e hx))

/-- Claim C1 counterexample: the state reached by `load_video` followed by
`pause()` — a `pause()` issued while the clock is stopped — has both
`paused = true` and `stopped = true`, so it is a reachable state in which two
of the three flags hold simultaneously, contradicting the claimed tri-state
exclusivity (`pause` never clears `stopped`). -/
theorem claim_C1_counterexample :
    (runClock [ClockEv.load 30 10, ClockEv.pause 5]).paused = true ∧
    (runClock [ClockEv.load 30 10, ClockEv.pause 5]).stopped = true :=
  ⟨rfl, rfl⟩

/-- Claim C1 (amended): along every sequence of well-formed
`load_video`/`play`/`pause`/`stop`/`seek` calls from the initial state,
`base_timestamp` always lies in `[0, duration]`, and `playing` is mutually
exclusive with `paused` and with `stopped` (with at least one flag set);
however `paused` and `stopped` are not mutually exclusive — a `pause()`
issued while stopped leaves both set, which is the one violation of the
claimed "at most one of the three flags" invariant. -/
theorem claim_C1 (evs : List ClockEv) (hwf : ∀ e ∈ evs, ClockEvWF e) :
    (0 ≤ (runClock evs).base_timestamp ∧
      (runClock evs).base_timestamp ≤ (runClock evs).video_duration) ∧
    ((runClock evs).playing = true →
      (runClock evs).paused = false ∧ (runClock evs).stopped = false) ∧
    ((runClock evs).playing = true ∨ (runClock evs).paused = true ∨
      (runClock evs).stopped = true) := by
  have h := clockInv_fold evs initClock clockInv_init hwf
  obtain ⟨_, hb, _, _, hflag, hone⟩ := h
  exact ⟨hb, hflag, hone⟩

/-- Witness for the amended claim C1 on a concrete call sequence. -/
theorem claim_C1_witness :
    (0 ≤ (runClock [ClockEv.load 30 10, ClockEv.play 2, ClockEv.pause 5]).base_timestamp ∧
      (runClock [ClockEv.load 30 10, ClockEv.play 2, ClockEv.pause 5]).base_timestamp ≤
        (runClock [ClockEv.load 30 10, ClockEv.play 2, ClockEv.pause 5]).video_duration) ∧
    ((runClock [ClockEv.load 30 10, ClockEv.play 2, ClockEv.pause 5]).playing = true →
      (runClock [ClockEv.load 30 10, ClockEv.play 2, ClockEv.pause 5]).paused = false ∧
        (runClock [ClockEv.load 30 10, ClockEv.play 2, ClockEv.pause 5]).stopped = false) ∧
    ((runClock [ClockEv.load 30 10, ClockEv.play 2, ClockEv.pause 5]).playing = true ∨
      (runClock [ClockEv.load 30 10, ClockEv.play 2, ClockEv.pause 5]).paused = true ∨
      (runClock [ClockEv.load 30 10, ClockEv.play 2, ClockEv.pause 5]).stopped = true) :=
  claim_C1 [ClockEv.load 30 10, ClockEv.play 2, ClockEv.pause 5]
    (by
      intro e he
      simp only [List.mem_cons, List.not_mem_nil, or_false] at he
      rcases he with rfl | rfl | rfl <;> simp [ClockEvWF])

/-- Claim C2: `play()` from the stopped state sets
`play_start = now - pause_position` and `base_timestamp = pause_position`;
`pause()` while playing freezes
`base_timestamp = clamp(now - play_start - accumulated_pause, 0, duration)`
and records the pause start; a subsequent `play()` adds exactly the elapsed
pause interval to `accumulated_pause_time` and recomputes `play_start` so
that the elapsed-position expression at the resume instant equals the frozen
`base_timestamp` (no double-counting across the pause boundary). -/
theorem claim_C2 (s : ClockState) (t0 t1 t2 : ℚ) :
    (s.stopped = true →
      (clockPlay t0 s).play_start_time = t0 - s.pause_position ∧
      (clockPlay t0 s).base_timestamp = s.pause_position) ∧
    (s.playing = true → s.stopped = false →
      (clockPause t1 s).base_timestamp
          = max 0 (min (t1 - s.play_start_time - s.accumulated_pause_time)
              s.video_duration) ∧
      (clockPause t1 s).last_pause_start = t1 ∧
      (clockPlay t2 (clockPause t1 s)).accumulated_pause_time
          = s.accumulated_pause_time + (t2 - t1) ∧
      t2 - (clockPlay t2 (clockPause t1 s)).play_start_time
          - (clockPlay t2 (clockPause t1 s)).accumulated_pause_time
        = (clockPause t1 s).base_timestamp) := by
  constructor
  · intro hstop
    simp [clockPlay, hstop]
  · intro hplay hstop
    have hcond : s.playing = true ∧ ¬ (s.stopped = true) := by
      simp [hplay, hstop]
    refine ⟨?_, ?_, ?_, ?_⟩
    · simp [clockPause, hcond]
    · simp [clockPause, hcond]
    · simp [clockPlay, clockPause, hcond, hstop]
    · simp [clockPlay, clockPause, hcond, hstop]
      ring

/-- Witness for claim C2 at a concrete playing state and pause/resume
times. -/
theorem claim_C2_witness :
    (let s : ClockState :=
      { playing := true, paused := false, stopped := false, video_fps := 30,
        total_frames := 300, video_duration := 10, current_frame := 0,
        play_start_time := 1, accumulated_pause_time := 0, last_pause_start := 0,
        base_timestamp := 0, pause_position := 0, seek_requested := false,
        seek_target := 0, seek_timestamp := 0 }
    (clockPause 4 s).base_timestamp
        = max 0 (min (4 - s.play_start_time - s.accumulated_pause_time) s.video_duration) ∧
    (clockPause 4 s).last_pause_start = 4 ∧
    (clockPlay 9 (clockPause 4 s)).accumulated_pause_time
        = s.accumulated_pause_time + (9 - 4) ∧
    (9 : ℚ) - (clockPlay 9 (clockPause 4 s)).play_start_time
        - (clockPlay 9 (clockPause 4 s)).accumulated_pause_time
      = (clockPause 4 s).base_timestamp) ∧
    (let s2 : ClockState :=
      { initClock with pause_position := 3 }
    (clockPlay 7 s2).play_start_time = 7 - s2.pause_position ∧
    (clockPlay 7 s2).base_timestamp = s2.pause_position) := by
  constructor
  · exact (claim_C2 _ 0 4 9).2 rfl rfl
  · exact (claim_C2 _ 7 0 0).1 rfl

/-- Claim C9: with `total_frames > 0`, `seek(frame_number)` clamps the target
to `[0, total_frames - 1]`, computes `target_timestamp = frame_number / fps`
for the clamped frame number and stores it in `base_timestamp`; while playing
it recomputes `play_start = now - target_timestamp` and zeroes the
accumulated pause time, so that `position()` immediately equals
`frame_number / fps / duration` (for an in-range frame number with
consistent metadata); while not playing it only stores the new paused
position, leaving `play_start` and the accumulated pause time untouched; and
the frame fetched for the pending seek is the first decodable frame whose
timestamp is at or after the seek target, hence `≥` it. -/
theorem claim_C9 (s : ClockState) (now : ℚ) (fn : ℤ)
    (htf : 0 < s.total_frames) :
    ((clockSeek now fn s).current_frame
        = max 0 (min fn ((s.total_frames : ℤ) - 1)) ∧
      (0 < s.video_fps →
        (clockSeek now fn s).seek_timestamp
            = ((max 0 (min fn ((s.total_frames : ℤ) - 1)) : ℤ) : ℚ) / s.video_fps ∧
        (clockSeek now fn s).base_timestamp
            = ((max 0 (min fn ((s.total_frames : ℤ) - 1)) : ℤ) : ℚ) / s.video_fps) ∧
      (s.playing = true → 0 < s.video_fps →
        (clockSeek now fn s).play_start_time
            = now - ((max 0 (min fn ((s.total_frames : ℤ) - 1)) : ℤ) : ℚ) / s.video_fps ∧
        (clockSeek now fn s).accumulated_pause_time = 0) ∧
      (s.playing = true → 0 < s.video_fps → 0 < s.video_duration →
        (s.total_frames : ℚ) ≤ s.video_duration * s.video_fps →
        0 ≤ fn → fn ≤ (s.total_frames : ℤ) - 1 →
        get_position now (clockSeek now fn s)
            = (fn : ℚ) / s.video_fps / s.video_duration) ∧
      (s.playing = false →
        (clockSeek now fn s).pause_position = (clockSeek now fn s).seek_timestamp ∧
        (clockSeek now fn s).play_start_time = s.play_start_time ∧
        (clockSeek now fn s).accumulated_pause_time = s.accumulated_pause_time)) ∧
    (∀ (frame_times : List ℚ) (target t : ℚ),
      get_frame_at_time frame_times target = some t → target ≤ t) := by
  have hn : ¬ ((s.total_frames : ℤ) ≤ 0) := by omega
  refine ⟨⟨?_, ?_, ?_, ?_, ?_⟩, ?_⟩
  · simp only [clockSeek, if_neg hn]
    split_ifs <;> rfl
  · intro hfps
    simp only [clockSeek, if_neg hn, if_pos hfps]
    split_ifs <;> exact ⟨rfl, rfl⟩
  · intro hplay hfps
    simp only [clockSeek, if_neg hn, if_pos hfps, if_pos hplay]
    exact ⟨by trivial, by trivial⟩
  · intro hplay hfps hdur hmeta hfn0 hfn1
    have hclamp : max 0 (min fn ((s.total_frames : ℤ) - 1)) = fn := by omega
    have hts : ((fn : ℤ) : ℚ) / s.video_fps ≤ s.video_duration := by
      rw [div_le_iff₀ hfps]
      have h1 : ((fn : ℤ) : ℚ) ≤ (s.total_frames : ℚ) - 1 := by exact_mod_cast hfn1
      linarith
    simp only [clockSeek, if_neg hn, if_pos hfps, if_pos hplay, hclamp]
    simp only [get_position, if_pos hdur, hplay, if_pos rfl]
    have harg : now - (now - ((fn : ℤ) : ℚ) / s.video_fps) - 0
        = ((fn : ℤ) : ℚ) / s.video_fps := by ring
    have hle : (now - (now - ((fn : ℤ) : ℚ) / s.video_fps) - 0) / s.video_duration ≤ 1 := by
      rw [harg, div_le_one hdur]
      exact hts
    rw [min_eq_left hle, harg]
    simp
  · intro hplay
    have hplay2 : ¬ (s.playing = true) := by simp [hplay]
    simp only [clockSeek, if_neg hn, if_neg hplay2]
    exact ⟨by trivial, by trivial, by trivial⟩
  · intro frame_times target t hfind
    have := List.find?_some hfind
    exact of_decide_eq_true this

/-- Witness for claim C9: seeking to frame 60 of a 300-frame 30-fps
10-second video while playing at wall-clock time 5. -/
theorem claim_C9_witness :
    (clockSeek 5 60 seekWitnessState).current_frame
        = max 0 (min 60 ((seekWitnessState.total_frames : ℤ) - 1)) ∧
    get_position 5 (clockSeek 5 60 seekWitnessState)
        = ((60 : ℤ) : ℚ) / seekWitnessState.video_fps / seekWitnessState.video_duration ∧
    (∀ t : ℚ, get_frame_at_time [1, 2, 3] (3/2) = some t → (3/2 : ℚ) ≤ t) := by
  have h0 : 0 < seekWitnessState.total_frames := by norm_num [seekWitnessState]
  refine ⟨(claim_C9 seekWitnessState 5 60 h0).1.1, ?_, ?_⟩
  · exact (claim_C9 seekWitnessState 5 60 h0).1.2.2.2.1 rfl
      (by norm_num [seekWitnessState]) (by norm_num [seekWitnessState])
      (by norm_num [seekWitnessState]) (by norm_num) (by norm_num [seekWitnessState])
  · intro t
    exact (claim_C9 seekWitnessState 0 0 h0).2 [1, 2, 3] (3/2) t

/-- The emitted sequence has pairwise-distinct neighbours, and its first
element differs from the initial `last_command`. -/
theorem arbEmitted_chain (frames : List (ℚ × CapFrame)) :
    ∀ s : ArbSt, List.Chain' (fun a b => a ≠ b) (arbEmitted s frames) ∧
      (∀ c : Cmd, (arbEmitted s frames).head? = some c → s.last_command ≠ some c) := by
  induction frames with
  | nil => intro s; exact ⟨List.chain'_nil, by intro c hc; simp [arbEmitted, arbRun] at hc⟩
  | cons tf rest ih =>
      intro s
      obtain ⟨t, f⟩ := tf
      rcases hc : arbCandidate s t f with _ | c
      · -- no candidate: nothing emitted this frame
        have hout : (arbStep s t f).2 = none := by
          cases f <;> simp [arbStep, hc]
        have hlast : (arbStep s t f).1.last_command = s.last_command := by
          cases f <;> simp [arbStep, hc]
        have hem : arbEmitted s ((t, f) :: rest) = arbEmitted (arbStep s t f).1 rest := by
          simp only [arbEmitted, arbRun, hout]
          simp
        obtain ⟨hch, hhd⟩ := ih (arbStep s t f).1
        refine ⟨by rw [hem]; exact hch, ?_⟩
        intro c hc2
        rw [hem] at hc2
        rw [← hlast]
        exact hhd c hc2
      · by_cases hne : some c ≠ s.last_command
        · have hout : (arbStep s t f).2 = some c := by
            cases f <;> (simp only [arbStep, hc]; rw [if_pos hne])
          have hlast : (arbStep s t f).1.last_command = some c := by
            cases f <;> (simp only [arbStep, hc]; rw [if_pos hne])
          have hem : arbEmitted s ((t, f) :: rest)
              = c :: arbEmitted (arbStep s t f).1 rest := by
            simp only [arbEmitted, arbRun, hout]
            rfl
          obtain ⟨hch, hhd⟩ := ih (arbStep s t f).1
          refine ⟨?_, ?_⟩
          · rw [hem]
            rw [List.chain'_cons']
            refine ⟨?_, hch⟩
            intro y hy
            have := hhd y hy
            rw [hlast] at this
            intro hcy
            exact this (by rw [hcy])
          · intro d hd
            rw [hem] at hd
            simp only [List.head?_cons, Option.some.injEq] at hd
            rw [← hd]
            exact fun h => hne h.symm
        · have hout : (arbStep s t f).2 = none := by
            cases f <;> (simp only [arbStep, hc]; rw [if_neg hne])
          have hlast : (arbStep s t f).1.last_command = s.last_command := by
            cases f <;> (simp only [arbStep, hc]; rw [if_neg hne])
          have hem : arbEmitted s ((t, f) :: rest) = arbEmitted (arbStep s t f).1 rest := by
            simp only [arbEmitted, arbRun, hout]
            simp
          obtain ⟨hch, hhd⟩ := ih (arbStep s t f).1
          refine ⟨by rw [hem]; exact hch, ?_⟩
          intro d hd
          rw [hem] at hd
          rw [← hlast]
          exact hhd d hd

/-- During a run of no-face frames the arbiter emits at most one command:
`pause`, exactly when some frame crosses the 1-second threshold and the last
emitted command was not already `pause`. -/
theorem arbEmitted_noface (times : List ℚ) :
    ∀ s : ArbSt,
      arbEmitted s (times.map (fun t => (t, CapFrame.noface)))
        = if s.last_command ≠ some Cmd.pause ∧
              ∃ t ∈ times, t - s.last_face_detected_time > 1
          then [Cmd.pause] else [] := by
  induction times with
  | nil => intro s; simp [arbEmitted, arbRun]
  | cons t ts ih =>
      intro s
      by_cases h1 : t - s.last_face_detected_time > 1
      · have hc : arbCandidate s t .noface = some Cmd.pause := by
          simp [arbCandidate, h1]
        by_cases h2 : (some Cmd.pause ≠ s.last_command)
        · have hstep : arbStep s t .noface
              = ({ s with last_command := some Cmd.pause }, some Cmd.pause) := by
            simp only [arbStep, hc]
            rw [if_pos h2]
          have hem : arbEmitted s ((t, CapFrame.noface) :: ts.map (fun t => (t, CapFrame.noface)))
              = Cmd.pause :: arbEmitted { s with last_command := some Cmd.pause }
                  (ts.map (fun t => (t, CapFrame.noface))) := by
            simp only [arbEmitted, arbRun, hstep]
            rfl
          rw [List.map_cons, hem, ih]
          have hcond2 : ¬ (({ s with last_command := some Cmd.pause } : ArbSt).last_command
              ≠ some Cmd.pause ∧ ∃ x ∈ ts,
                x - ({ s with last_command := some Cmd.pause } : ArbSt).last_face_detected_time > 1) := by
            intro h
            exact h.1 rfl
          rw [if_neg hcond2]
          have hcond : s.last_command ≠ some Cmd.pause ∧
              ∃ x ∈ t :: ts, x - s.last_face_detected_time > 1 :=
            ⟨fun h => h2 h.symm, ⟨t, List.mem_cons_self t ts, h1⟩⟩
          rw [if_pos hcond]
        · have hlast : s.last_command = some Cmd.pause := by
            by_contra hne
            exact h2 (fun h => hne h.symm)
          have hstep : arbStep s t .noface = (s, none) := by
            simp only [arbStep, hc]
            rw [if_neg h2]
          have hem : arbEmitted s ((t, CapFrame.noface) :: ts.map (fun t => (t, CapFrame.noface)))
              = arbEmitted s (ts.map (fun t => (t, CapFrame.noface))) := by
            simp only [arbEmitted, arbRun, hstep]
            rfl
          rw [List.map_cons, hem, ih]
          have hf : ¬ (s.last_command ≠ some Cmd.pause ∧
              ∃ x ∈ ts, x - s.last_face_detected_time > 1) := fun h => h.1 hlast
          have hf2 : ¬ (s.last_command ≠ some Cmd.pause ∧
              ∃ x ∈ t :: ts, x - s.last_face_detected_time > 1) := fun h => h.1 hlast
          rw [if_neg hf, if_neg hf2]
      · have hc : arbCandidate s t .noface = none := by
          simp [arbCandidate, h1]
        have hstep : arbStep s t .noface = (s, none) := by
          simp [arbStep, hc]
        have hem : arbEmitted s ((t, CapFrame.noface) :: ts.map (fun t => (t, CapFrame.noface)))
            = arbEmitted s (ts.map (fun t => (t, CapFrame.noface))) := by
          simp only [arbEmitted, arbRun, hstep]
          rfl
        rw [List.map_cons, hem, ih]
        have hiff : (s.last_command ≠ some Cmd.pause ∧
              ∃ x ∈ t :: ts, x - s.last_face_detected_time > 1)
            ↔ (s.last_command ≠ some Cmd.pause ∧
              ∃ x ∈ ts, x - s.last_face_detected_time > 1) := by
          constructor
          · rintro ⟨ha, x, hx, hxt⟩
            rcases List.mem_cons.mp hx with rfl | hx2
            · exact absurd hxt h1
            · exact ⟨ha, x, hx2, hxt⟩
          · rintro ⟨ha, x, hx, hxt⟩
            exact ⟨ha, x, List.mem_cons_of_mem t hx, hxt⟩
        by_cases hcnd : s.last_command ≠ some Cmd.pause ∧
            ∃ x ∈ ts, x - s.last_face_detected_time > 1
        · rw [if_pos hcnd, if_pos (hiff.mpr hcnd)]
        · rw [if_neg hcnd, if_neg (fun h => hcnd (hiff.mp h))]

/-- Claim C8: the command arbiter never forwards two identical consecutive
commands (a command is emitted only when it differs from the previously
emitted one); per face-detected frame it selects `pause` exactly when eyes
are sustained-closed or the user is not gazing and `play` otherwise, also
updating the last-face-seen time; on a no-face frame it selects `pause` only
once more than 1 second of wall-clock time has passed since the last
face-seen time; and over any interval of consecutive no-face frames crossing
that threshold exactly one `pause` is emitted (none if the last command was
already `pause`), not one per frame. -/
theorem claim_C8 :
    (∀ (s : ArbSt) (frames : List (ℚ × CapFrame)),
      List.Chain' (fun a b => a ≠ b) (arbEmitted s frames)) ∧
    (∀ (s : ArbSt) (now : ℚ) (ec g : Bool),
      arbCandidate s now (.face ec g)
          = some (if ec || !g then Cmd.pause else Cmd.play) ∧
      (arbStep s now (.face ec g)).1.last_face_detected_time = now) ∧
    (∀ (s : ArbSt) (now : ℚ),
      arbCandidate s now .noface
        = if now - s.last_face_detected_time > 1 then some Cmd.pause else none) ∧
    (∀ (s : ArbSt) (times : List ℚ),
      arbEmitted s (times.map (fun t => (t, CapFrame.noface)))
        = if s.last_command ≠ some Cmd.pause ∧
              ∃ t ∈ times, t - s.last_face_detected_time > 1
          then [Cmd.pause] else []) := by
  refine ⟨?_, ?_, ?_, ?_⟩
  · intro s frames
    exact (arbEmitted_chain frames s).1
  · intro s now ec g
    refine ⟨rfl, ?_⟩
    simp only [arbStep, arbCandidate]
    split_ifs <;> rfl
  · intro s now
    rfl
  · intro s times
    exact arbEmitted_noface times s

end EyeRemote
